import Mathlib

/-!
Verification of the QuickCTX context-menu engine (src/src/classes/QuickCTX.js and
src/src/classes/MenuCommand.js), as a shallow embedding in Lean.

JavaScript values that matter to the embedded code paths (the `action` field of a
command, values stored in the registered-actions map) are modelled by `JsVal`;
strict equality `===` coincides with decidable equality on this type because the
embedded comparisons never cross types.

The open/close lifecycle of root menus (`_openMenu`, `_hideMenu` and the deferred
`hide()` callback scheduled with `setTimeout`) is modelled as a small event-driven
state machine: an event is one macro-task of the single-threaded host (an open
request with its synchronous build, a close request, or the firing of a pending
close-animation timer).  Inside `_showMenuDOM` the `opening` class is added and
replaced by `open` within the same synchronous run (a forced layout read sits in
between), so a successfully built menu is observed in the `opened` phase.
-/

/-- A JavaScript value as far as the embedded code inspects one. -/
inductive JsVal where
  | undef : JsVal
  | nullV : JsVal
  | str : String → JsVal
  | fn : Nat → JsVal
deriving DecidableEq

/-- Lifecycle phase of one root menu node: the CSS lifecycle classes
`quickctx--opening` / `quickctx--open` / `quickctx--closing`, plus `closed`
for a node that has been removed from the document. -/
inductive Phase where
  | closed : Phase
  | opening : Phase
  | opened : Phase
  | closing : Phase
deriving DecidableEq

/-- Engine bookkeeping for root menus: every menu node ever created (keyed by a
fresh id, standing for the DOM node identity), with its current phase, and
`active`, standing for `this.activeMenuElement`. -/
structure EngineState where
  nextId : Nat
  menus : List (Nat × Phase)
  active : Option Nat

/-- One macro-task of the host event loop touching the root-menu lifecycle. -/
inductive Event where
  /-- a trigger fires and `_openMenu` runs; `hasItems` tells whether the build
  in `_buildAndShowMenu` finds at least one visible item. -/
  | openReq (hasItems : Bool) : Event
  /-- `closeMenu(instant)` / Escape / scroll: `_hideMenu(activeMenuElement, instant)`. -/
  | closeReq (instant : Bool) : Event
  /-- the `setTimeout(hide, menuCloseDuration)` callback of an animated
  `_hideMenu` fires for menu `i`. -/
  | closeTimer (i : Nat) : Event

def initEngine : EngineState := ⟨0, [], none⟩

def phaseOf (s : EngineState) (i : Nat) : Phase :=
  (s.menus.lookup i).getD Phase.closed

def setPhase (menus : List (Nat × Phase)) (i : Nat) (p : Phase) : List (Nat × Phase) :=
  menus.map (fun e => if e.1 = i then (e.1, p) else e)

/-- One engine step.

`openReq`: `_openMenu` first checks `activeMenuElement && !classList.contains(closing)`
and, if so, calls `_hideMenu(activeMenuElement, false)` — which synchronously swaps
the `open`/`opening` classes for `closing` and schedules the actual teardown
(`hide()`) on a timer, without waiting.  A fresh node is then created, becomes
`activeMenuElement`, and `_buildAndShowMenu` either shows it (`opened`) or, with
zero visible items, hides it instantly (`closed`, with `activeMenuElement` reset).

`closeReq`: `_hideMenu` on the active node: instant teardown resets `active`;
animated teardown only marks `closing` and leaves the reset to the timer.

`closeTimer i`: the deferred `hide()` runs for node `i` if it is still in its
closing animation; it resets `activeMenuElement` only when it still points to `i`. -/
def engineStep (s : EngineState) : Event → EngineState
  | Event.openReq hasItems =>
    let menus1 := match s.active with
      | some a => if phaseOf s a ≠ Phase.closing then setPhase s.menus a Phase.closing else s.menus
      | none => s.menus
    let m := s.nextId
    if hasItems then
      ⟨m + 1, (m, Phase.opened) :: menus1, some m⟩
    else
      ⟨m + 1, (m, Phase.closed) :: menus1, none⟩
  | Event.closeReq instant =>
    match s.active with
    | none => s
    | some a =>
      if instant then
        ⟨s.nextId, setPhase s.menus a Phase.closed, none⟩
      else
        ⟨s.nextId, setPhase s.menus a Phase.closing, s.active⟩
  | Event.closeTimer i =>
    if phaseOf s i = Phase.closing then
      ⟨s.nextId, setPhase s.menus i Phase.closed,
        if s.active = some i then none else s.active⟩
    else s

def runEngine (evts : List Event) : EngineState :=
  evts.foldl engineStep initEngine

/-- Number of root menus currently in the `opened` or `opening` phase. -/
def countOpenB (s : EngineState) : Nat :=
  s.menus.countP (fun e => e.2 == Phase.opened || e.2 == Phase.opening)

/-- Every root menu other than the active one is in its close sequence
(`closing`) or fully `closed`. -/
def othersSettledB (s : EngineState) : Bool :=
  s.menus.all (fun e => s.active == some e.1 || e.2 == Phase.closing || e.2 == Phase.closed)

def KeysBelow (s : EngineState) : Prop := ∀ e ∈ s.menus, e.1 < s.nextId

def KeysNodup (s : EngineState) : Prop := (s.menus.map Prod.fst).Nodup

def OpenImpliesActive (s : EngineState) : Prop :=
  ∀ e ∈ s.menus, (e.2 = Phase.opened ∨ e.2 = Phase.opening) → s.active = some e.1

def EngineInv (s : EngineState) : Prop :=
  KeysBelow s ∧ KeysNodup s ∧ OpenImpliesActive s

/-- Command type tags (`'action' | 'sublist' | 'separator'` in MenuCommand.js). -/
inductive CmdType where
  | action : CmdType
  | sublist : CmdType
  | separator : CmdType
deriving DecidableEq

/-- Filter strategy (`'hide' | 'disable'`); the effective strategy used in
`_buildAndShowMenu` is `config.filterStrategy || this.options.globalFilterStrategy`. -/
inductive Strategy where
  | hide : Strategy
  | disable : Strategy
deriving DecidableEq

/-- The scalar fields of a MenuCommand instance. -/
structure CommandData where
  id : Nat
  label : Option String
  ctype : CmdType
  action : JsVal
  targetTypes : List String
  iconClass : Option String
  disabled : Bool
  visible : Bool
  order : Int

/-- A MenuCommand: scalar fields plus the `subCommands` tree. -/
inductive Command where
  | mk : CommandData → List Command → Command

def Command.data : Command → CommandData
  | Command.mk d _ => d

def Command.subCommands : Command → List Command
  | Command.mk _ subs => subs

/-- `command.targetTypes.includes("*") || command.targetTypes.includes(targetType)`
from `_buildAndShowMenu`. -/
def typeMatches (targetTypes : List String) (targetType : String) : Bool :=
  targetTypes.contains "*" || targetTypes.contains targetType

/-- One `<li>` appended to the menu list: the command it renders and the
`effectiveDisabled` flag passed to `_createMenuItemDOM`. -/
structure RenderedItem where
  data : CommandData
  effectiveDisabled : Bool

/-- The per-command body of the `config.commands.forEach` loop in
`_buildAndShowMenu` (lines 1337-1366): skip when `visible` is false; a
non-matching command is skipped under the `hide` strategy and rendered with
`effectiveDisabled = true` otherwise; a matching command keeps its own
`disabled` flag. -/
def renderCommand (strategy : Strategy) (targetType : String) (c : Command) : Option RenderedItem :=
  let typeMatch := typeMatches c.data.targetTypes targetType
  if !c.data.visible then none
  else if !typeMatch && strategy == Strategy.hide then none
  else some ⟨c.data, if typeMatch then c.data.disabled else true⟩

/-- Observable outcome of `_buildAndShowMenu`: the rendered items, whether
`_showMenuDOM` ran for the node being built, whether
`_hideMenu(this.activeMenuElement, true)` ran (instantly tearing down the
active root menu), and whether the parent item's `has-submenu-arrow` class was
removed. -/
structure BuildResult where
  items : List RenderedItem
  shown : Bool
  activeHiddenInstantly : Bool
  arrowStripped : Bool

/-- `_buildAndShowMenu` (lines 1335-1396), with `isSubmenu` standing for
`parentMenuElement !== null`: with at least one visible item the node is shown;
with zero visible items the `else` branch runs
`this._hideMenu(this.activeMenuElement, true)` — the active ROOT menu — in both
the root and the submenu case, and the follow-up `if (visibleItems === 0)`
repeats that hide for a root build (a no-op, `activeMenuElement` is already
null) or strips the parent's open-affordance for a submenu build. -/
def buildAndShowMenu (commands : List Command) (strategy : Strategy) (targetType : String)
    (isSubmenu : Bool) : BuildResult :=
  let items := commands.filterMap (renderCommand strategy targetType)
  if items.length > 0 then
    ⟨items, true, false, false⟩
  else
    ⟨items, false, true, isSubmenu⟩

/-- The element `this.currentTargetElement`, with its two data attributes. -/
structure TargetInfo where
  elemId : Nat
  customCtxmenu : Option String
  customCtxmenuType : Option String

/-- The `detail` payload of the `QuickCTXActionSelected` custom event. -/
structure EventDetail where
  menuId : Option String
  commandId : Nat
  commandLabel : Option String
  targetElement : Nat
  targetType : Option String

/-- Observable outcome of one activation of an action item's click listener:
which callback ran, whether an error-flagged log record was emitted, the error
message re-thrown out of the listener (if any), the dispatched notification
payload (if any), and whether `_hideMenu(this.activeMenuElement)` ran. -/
structure ClickOutcome where
  invoked : Option Nat
  errorLogged : Bool
  thrown : Option String
  dispatched : Option EventDetail
  menuClosed : Bool

/-- `this.registeredActions[name]`: property read on a plain object, yielding
`undefined` when the name was never registered. -/
def lookupAction (reg : List (String × JsVal)) (name : String) : JsVal :=
  (reg.lookup name).getD JsVal.undef

/-- `let action = command.action; if (typeof action === "string") action =
this.registeredActions[action];` -/
def resolveActionVal (reg : List (String × JsVal)) (a : JsVal) : JsVal :=
  match a with
  | JsVal.str s => lookupAction reg s
  | v => v

/-- String interpolation of a possibly-undefined label in a JS template literal. -/
def jsStr (l : Option String) : String :=
  l.getD "undefined"

/-- The click listener installed on an action item by `_createMenuItemDOM`
(lines 1210-1277).  `behavior` gives the semantics of each registered callback:
it either returns or throws a message.  Faithful details: the guard for a
missing action compares the resolved value against the string literal
"undefined" (`action === "undefined"`), not against the undefined value, so a
lookup miss falls through; a throwing callback is logged and re-thrown wrapped
with the command label, and the re-throw happens before the dispatch of
`QuickCTXActionSelected` and before `_hideMenu`, which therefore only run when
nothing threw. -/
def actionClickHandler (reg : List (String × JsVal)) (behavior : Nat → Except String Unit)
    (target : TargetInfo) (cmd : CommandData) (isDisabled : Bool) : ClickOutcome :=
  if isDisabled then ⟨none, false, none, none, false⟩
  else
    let action := resolveActionVal reg cmd.action
    if action = JsVal.str "undefined" then
      ⟨none, true, some ("No action registered for command \"" ++ jsStr cmd.label ++ "\""),
        none, false⟩
    else
      match action with
      | JsVal.fn f =>
        match behavior f with
        | Except.error msg =>
          ⟨some f, true,
            some ("Error executing action for command \"" ++ jsStr cmd.label ++ "\": " ++ msg),
            none, false⟩
        | Except.ok _ =>
          ⟨some f, false, none,
            some ⟨target.customCtxmenu, cmd.id, cmd.label, target.elemId, target.customCtxmenuType⟩,
            true⟩
      | _ =>
        ⟨none, false, none,
          some ⟨target.customCtxmenu, cmd.id, cmd.label, target.elemId, target.customCtxmenuType⟩,
          true⟩

/-- A visible action command whose `targetTypes` is `["folder"]`. -/
def folderOnlyCmd : Command :=
  Command.mk ⟨1, some "Folder action", CmdType.action, JsVal.str "act", ["folder"], none,
    false, true, 0⟩ []

/-- A bound element carrying menu id "m1" and type stamp "file". -/
def sampleTarget : TargetInfo := ⟨7, some "m1", some "file"⟩

/-- An action command referencing the unregistered action name "missing". -/
def missingActionCmd : CommandData :=
  ⟨2, some "Broken", CmdType.action, JsVal.str "missing", ["*"], none, false, true, 0⟩

/-- An action command referencing the registered action name "boomAction". -/
def boomCmd : CommandData :=
  ⟨3, some "Boom", CmdType.action, JsVal.str "boomAction", ["*"], none, false, true, 0⟩

/-- An action command referencing the registered action name "okAction". -/
def okCmd : CommandData :=
  ⟨4, some "Fine", CmdType.action, JsVal.str "okAction", ["*"], none, false, true, 0⟩

/-- One bound element as `bindMenuToElements` sees it: its
`data-custom-ctxmenu` and `data-custom-ctxmenu-type` attributes. -/
structure BoundElement where
  customCtxmenu : Option String
  customCtxmenuType : Option String

/-- The per-element body of `bindMenuToElements` (lines 1635-1642):
`el.dataset.customCtxmenu = menuId` unconditionally, and
`el.dataset.customCtxmenuType = el.dataset.customCtxmenuType ? existing : type` —
the existing stamp is kept only when it is truthy, i.e. present AND non-empty. -/
def bindOneElement (el : BoundElement) (menuId : String) (elType : String) : BoundElement :=
  ⟨some menuId,
    match el.customCtxmenuType with
    | some s => if s ≠ "" then some s else some elType
    | none => some elType⟩

/-- Horizontal placement in `_showMenuDOM` (lines 1420-1439).  For a submenu the
anchor is first recomputed from the parent item's box as
`parentLiRect.right - 5`.  On right-edge overflow (`x + menuRect.width >
docWidth`) a root menu moves to `docWidth - menuRect.width - 10`, a submenu to
`x - menuRect.width - parentWidth + 10`; finally `if (x < 10) x = 10`. -/
def showMenuX (anchorX menuWidth docWidth : Int) (isSubmenu : Bool)
    (parentLeft parentWidth : Int) : Int :=
  let x0 := if isSubmenu then parentLeft + parentWidth - 5 else anchorX
  let x1 :=
    if x0 + menuWidth > docWidth then
      if isSubmenu then x0 - menuWidth - parentWidth + 10
      else docWidth - menuWidth - 10
    else x0
  if x1 < 10 then 10 else x1

/-- The `targetTypes` argument as the MenuCommand constructor receives it: an
array, some non-array value, or absent (the default parameter then supplies
`['*']`). -/
inductive TTInput where
  | arr : List String → TTInput
  | nonArray : TTInput
  | absent : TTInput

/-- `Array.isArray(targetTypes) && targetTypes.length > 0 ? targetTypes : ['*']`
(MenuCommand.js line 48), with the default parameter applied first when the
argument is absent. -/
def normalizeTargetTypes : TTInput → List String
  | TTInput.arr ts => if ts.length > 0 then ts else ["*"]
  | TTInput.nonArray => ["*"]
  | TTInput.absent => ["*"]

/-- The options object passed to the MenuCommand constructor: the fields the
constructor inspects, in declaration order (id, label, type, action,
targetTypes, subCommands, iconClass, disabled, visible, order).  Children are
given as nested options and constructed recursively, as the constructor does
for plain objects. -/
inductive MCOptions where
  | mk : Nat → Option String → Option CmdType → JsVal → TTInput → List MCOptions →
      Option String → Bool → Bool → Int → MCOptions

def MCOptions.targetTypes : MCOptions → TTInput
  | MCOptions.mk _ _ _ _ tt _ _ _ _ _ => tt

mutual

/-- The MenuCommand constructor (MenuCommand.js lines 26-58): it throws when
the type is not separator and the label is falsy (absent or empty), normalizes
`targetTypes`, and recursively constructs the children. -/
def mkMenuCommand : MCOptions → Except String Command
  | MCOptions.mk id label ctypeOpt action tt subs iconClass disabled visible order =>
    let ty := ctypeOpt.getD CmdType.action
    if ty ≠ CmdType.separator ∧ (label = none ∨ label = some "") then
      Except.error "label is required for types other than separator"
    else
      match mkMenuCommandList subs with
      | Except.error e => Except.error e
      | Except.ok subCmds =>
        Except.ok (Command.mk
          ⟨id, label, ty, action, normalizeTargetTypes tt, iconClass, disabled, visible, order⟩
          subCmds)

def mkMenuCommandList : List MCOptions → Except String (List Command)
  | [] => Except.ok []
  | o :: rest =>
    match mkMenuCommand o with
    | Except.error e => Except.error e
    | Except.ok c =>
      match mkMenuCommandList rest with
      | Except.error e => Except.error e
      | Except.ok cs => Except.ok (c :: cs)

end

/-- Partial update object passed to `updateMenuCommand`; a present field is
assigned onto the command (`Object.assign(command, updates)`), an absent one
leaves the command's field untouched. -/
structure Updates where
  label : Option String
  disabled : Option Bool
  iconClass : Option (Option String)

/-- An updates object carrying only a new label, as in
`updateMenuCommand(id, actionRef, {label: s})`. -/
def labelUpdate (s : String) : Updates := ⟨some s, none, none⟩

/-- `Object.assign(command, updates)` restricted to the modelled fields. -/
def mergeData (d : CommandData) (u : Updates) : CommandData :=
  ⟨d.id,
    match u.label with
    | some x => some x
    | none => d.label,
    d.ctype, d.action, d.targetTypes,
    match u.iconClass with
    | some x => x
    | none => d.iconClass,
    match u.disabled with
    | some x => x
    | none => d.disabled,
    d.visible, d.order⟩

/-- The recursive `findAndMerge` helper inside `updateMenuCommand` (lines
1584-1600): walk the sibling list in order; the first command whose `action`
strictly equals the resolved reference receives the updates and the search
stops; otherwise the search descends into the command's `subCommands` before
moving to the next sibling (pre-order depth-first).  The in-place mutation is
rendered functionally: `some` carries the updated list, `none` means no match
anywhere. -/
def findAndMergeL (a : JsVal) (u : Updates) : List Command → Option (List Command)
  | [] => none
  | Command.mk d subs :: rest =>
    if d.action = a then some (Command.mk (mergeData d u) subs :: rest)
    else
      match findAndMergeL a u subs with
      | some subs2 => some (Command.mk d subs2 :: rest)
      | none =>
        match findAndMergeL a u rest with
        | some rest2 => some (Command.mk d subs :: rest2)
        | none => none

/-- `action = typeof action === "function" ? this.functionActionMap.get(action)
: action` — a callback reference is replaced by its cached generated name, or
by undefined when the callback was never auto-registered. -/
def resolveRef (famap : List (Nat × String)) (ref : JsVal) : JsVal :=
  match ref with
  | JsVal.fn f =>
    match famap.lookup f with
    | some n => JsVal.str n
    | none => JsVal.undef
  | v => v

/-- `updateMenuCommand(menuId, action, updates)` (lines 1563-1619): resolve a
callback reference through `functionActionMap`, return false when the menu id
is unknown (soft failure), otherwise run `findAndMerge` over the
configuration's commands and report whether a command was updated. -/
def updateMenuCommandModel (famap : List (Nat × String))
    (cfgs : List (String × List Command)) (menuId : String) (ref : JsVal) (u : Updates) :
    List (String × List Command) × Bool :=
  let a := resolveRef famap ref
  match cfgs.lookup menuId with
  | none => (cfgs, false)
  | some commands =>
    match findAndMergeL a u commands with
    | some commands2 =>
      (cfgs.map (fun e => if e.1 = menuId then (e.1, commands2) else e), true)
    | none => (cfgs, false)

/-- Pre-order flattening of a command forest: each command before its
subCommands, a command's subtree before its later siblings. -/
def preorderFlat : List Command → List CommandData
  | [] => []
  | Command.mk d subs :: rest => d :: (preorderFlat subs ++ preorderFlat rest)

/-- Modelled from the spec: merge the update fields into the first command of a
pre-order listing whose `action` equals the reference, leaving every other
field and every other command unchanged (spec section 4.2, `updateCommand`). -/
def mergeFirstFlat (a : JsVal) (u : Updates) : List CommandData → Option (List CommandData)
  | [] => none
  | d :: rest =>
    if d.action = a then some (mergeData d u :: rest)
    else
      match mergeFirstFlat a u rest with
      | some rest2 => some (d :: rest2)
      | none => none

/-- A small configuration: a sublist holding the command with action "t",
preceded by an unrelated action command. -/
def c6Commands : List Command :=
  [Command.mk ⟨10, some "First", CmdType.action, JsVal.str "other", ["*"], none, false, true, 0⟩
      [],
    Command.mk ⟨11, some "Tools", CmdType.sublist, JsVal.undef, ["*"], none, false, true, 0⟩
      [Command.mk ⟨12, some "Target", CmdType.action, JsVal.str "t", ["*"], none, false, true, 0⟩
        []]]

def c6Cfgs : List (String × List Command) := [("m1", c6Commands)]

/-- A one-command configuration holding the command with action "t", used to
exercise the label-update absorption conjunct on concrete data. -/
def c6FlatCmds : List Command :=
  [Command.mk ⟨12, some "Target", CmdType.action, JsVal.str "t", ["*"], none, false, true, 0⟩ []]

/-- `c6FlatCmds` after `updateMenuCommand` with `{label: "X"}`: only the label
of the matching command changed. -/
def c6FlatCmdsX : List Command :=
  [Command.mk ⟨12, some "X", CmdType.action, JsVal.str "t", ["*"], none, false, true, 0⟩ []]

/-- A menu item definition given to `createAndBindMenu`: the fields
`processStructure` inspects when auto-registering inline callback actions. -/
inductive ItemDef where
  | mk : JsVal → List ItemDef → ItemDef

/-- The generated unique action name `quickctx-action-<uniqueId>`.
`crypto.randomUUID()` does not repeat; the model draws the unique part from a
counter, so the n-th name generated by an instance is `genName n`. -/
def genName (n : Nat) : String := "quickctx-action-" ++ toString n

/-- Auto-registration bookkeeping of a QuickCTX instance: `functionActionMap`
(callback ↦ generated name; most recent binding first, as `Map.set` and
property writes overwrite) and the `registeredActions` entries created by
`processStructure` (generated name ↦ callback), plus the fresh-name counter. -/
structure RegState where
  functionActionMap : List (Nat × String)
  registeredActions : List (String × Nat)
  fresh : Nat

def initRegState : RegState := ⟨[], [], 0⟩

/-- The inline-callback block of `processStructure` (lines 1740-1754): a
callback already in `functionActionMap` reuses its cached name; otherwise a
unique name is generated, `registerAction(name, fn)` stores the callback, and
the name is cached for the callback. -/
def processAction (st : RegState) (a : JsVal) : RegState × JsVal :=
  match a with
  | JsVal.fn f =>
    match st.functionActionMap.lookup f with
    | some name => (st, JsVal.str name)
    | none =>
      let name := genName st.fresh
      (⟨(f, name) :: st.functionActionMap, (name, f) :: st.registeredActions, st.fresh + 1⟩,
        JsVal.str name)
  | v => (st, v)

/-- `processStructure` (lines 1715-1763) threaded over the registration state:
each item first processes its `subCommands` recursively, then its own inline
action, before the next sibling. -/
def processItems (st : RegState) : List ItemDef → RegState
  | [] => st
  | ItemDef.mk a subs :: rest =>
    processItems ((processAction (processItems st subs) a).1) rest

/-- A sequence of `createAndBindMenu` calls, each processing one structure. -/
def processStructures (st : RegState) : List (List ItemDef) → RegState
  | [] => st
  | s :: rest => processStructures (processItems st s) rest

/-- Whether callback `f` occurs as an inline action anywhere in the items. -/
def itemsUseFn : List ItemDef → Nat → Bool
  | [], _ => false
  | ItemDef.mk a subs :: rest, f =>
    (a == JsVal.fn f) || itemsUseFn subs f || itemsUseFn rest f

def structuresUseFn (structures : List (List ItemDef)) (f : Nat) : Bool :=
  structures.any (fun s => itemsUseFn s f)

/-- Number of `functionActionMap` entries recorded for callback `f`. -/
def countFnEntries (l : List (Nat × String)) (f : Nat) : Nat :=
  l.countP (fun e => e.1 == f)

/-- Number of `registeredActions` entries whose registered callback is `f`. -/
def countRegEntries (l : List (String × Nat)) (f : Nat) : Nat :=
  l.countP (fun e => e.2 == f)

/-- First createAndBindMenu structure: callback 0 inline plus a name-based
action. -/
def c8First : List ItemDef := [ItemDef.mk (JsVal.fn 0) [], ItemDef.mk (JsVal.str "named") []]

/-- Second createAndBindMenu structure: callback 0 again, also nested. -/
def c8Second : List ItemDef := [ItemDef.mk (JsVal.fn 0) [ItemDef.mk (JsVal.fn 0) []]]

def c8Structures : List (List ItemDef) := [c8First, c8Second]

lemma setPhase_map_fst (menus : List (Nat × Phase)) (i : Nat) (p : Phase) :
    (setPhase menus i p).map Prod.fst = menus.map Prod.fst := by
  simp only [setPhase, List.map_map]
  apply List.map_congr_left
  intro e _
  by_cases h : e.1 = i <;> simp [h]

lemma mem_setPhase {menus : List (Nat × Phase)} {i : Nat} {p : Phase} {e : Nat × Phase}
    (he : e ∈ setPhase menus i p) :
    ∃ e0 ∈ menus, e = if e0.1 = i then (e0.1, p) else e0 := by
  simp only [setPhase, List.mem_map] at he
  obtain ⟨e0, he0, heq⟩ := he
  exact ⟨e0, he0, heq.symm⟩

lemma lookup_of_mem_nodup {l : List (Nat × Phase)} {e : Nat × Phase}
    (he : e ∈ l) (hn : (l.map Prod.fst).Nodup) : l.lookup e.1 = some e.2 := by
  induction l with
  | nil => simp at he
  | cons hd tl ih =>
    obtain ⟨k, v⟩ := hd
    rcases List.mem_cons.mp he with h1 | h1
    · subst h1
      simp [List.lookup]
    · have hne : k ≠ e.1 := by
        intro hcontra
        have hmem : e.1 ∈ tl.map Prod.fst := List.mem_map_of_mem (f := Prod.fst) h1
        rw [← hcontra] at hmem
        exact (List.nodup_cons.mp hn).1 hmem
      have htl : (tl.map Prod.fst).Nodup := (List.nodup_cons.mp hn).2
      have hbe : (e.1 == k) = false := beq_eq_false_iff_ne.mpr (fun hcontra => hne hcontra.symm)
      simp only [List.lookup, hbe]
      exact ih h1 htl

lemma engineInv_step (s : EngineState) (ev : Event) (h : EngineInv s) :
    EngineInv (engineStep s ev) := by
  obtain ⟨hb, hn, ho⟩ := h
  cases ev with
  | openReq hasItems =>
    suffices hkey : ∃ menus1 : List (Nat × Phase),
        engineStep s (Event.openReq hasItems) =
          ⟨s.nextId + 1,
            (s.nextId, if hasItems then Phase.opened else Phase.closed) :: menus1,
            if hasItems then some s.nextId else none⟩
        ∧ menus1.map Prod.fst = s.menus.map Prod.fst
        ∧ ∀ e ∈ menus1, e.1 < s.nextId ∧ ¬(e.2 = Phase.opened ∨ e.2 = Phase.opening) by
      obtain ⟨menus1, heq, hfst, hmem⟩ := hkey
      rw [heq]
      refine ⟨?_, ?_, ?_⟩
      · intro e he
        rcases List.mem_cons.mp he with h1 | h1
        · subst h1
          show s.nextId < s.nextId + 1
          omega
        · exact Nat.lt_succ_of_lt (hmem e h1).1
      · have hnew : s.nextId ∉ menus1.map Prod.fst := by
          rw [hfst]
          intro hcontra
          obtain ⟨e, he, heq2⟩ := List.mem_map.mp hcontra
          have := hb e he
          omega
        have h1 : (menus1.map Prod.fst).Nodup := by rw [hfst]; exact hn
        exact List.nodup_cons.mpr ⟨hnew, h1⟩
      · intro e he hop
        rcases List.mem_cons.mp he with h1 | h1
        · subst h1
          cases hasItems with
          | true => rfl
          | false => rcases hop with h2 | h2 <;> simp at h2
        · exact absurd hop (hmem e h1).2
    cases hA : s.active with
    | none =>
      refine ⟨s.menus, ?_, rfl, ?_⟩
      · simp only [engineStep, hA]
        cases hasItems <;> rfl
      · intro e he
        refine ⟨hb e he, ?_⟩
        intro hop
        have h1 := ho e he hop
        rw [hA] at h1
        exact Option.noConfusion h1
    | some a =>
      by_cases hc : phaseOf s a = Phase.closing
      · refine ⟨s.menus, ?_, rfl, ?_⟩
        · simp only [engineStep, hA, hc]
          cases hasItems <;> simp [hc]
        · intro e he
          refine ⟨hb e he, ?_⟩
          intro hop
          have h1 := ho e he hop
          rw [hA] at h1
          have h2 : e.1 = a := (Option.some.inj h1).symm
          have h3 : phaseOf s e.1 = e.2 := by
            simp [phaseOf, lookup_of_mem_nodup he hn]
          rw [h2, hc] at h3
          rcases hop with h4 | h4 <;> rw [h4] at h3 <;> exact Phase.noConfusion h3
      · refine ⟨setPhase s.menus a Phase.closing, ?_, setPhase_map_fst _ _ _, ?_⟩
        · simp only [engineStep, hA, hc]
          cases hasItems <;> simp [hc]
        · intro e he
          obtain ⟨e0, he0, heq⟩ := mem_setPhase he
          by_cases h0 : e0.1 = a
          · rw [if_pos h0] at heq
            subst heq
            refine ⟨hb e0 he0, ?_⟩
            rintro (h4 | h4) <;> exact Phase.noConfusion h4
          · rw [if_neg h0] at heq
            subst heq
            refine ⟨hb e he0, ?_⟩
            intro hop
            have h1 := ho e he0 hop
            rw [hA] at h1
            exact h0 (Option.some.inj h1).symm
  | closeReq instant =>
    cases hA : s.active with
    | none =>
      simp only [engineStep, hA]
      exact ⟨hb, hn, ho⟩
    | some a =>
      by_cases hi : instant = true
      · simp only [engineStep, hA, hi, if_true]
        refine ⟨?_, ?_, ?_⟩
        · intro e he
          obtain ⟨e0, he0, heq⟩ := mem_setPhase he
          by_cases h0 : e0.1 = a
          · rw [if_pos h0] at heq; subst heq; exact hb e0 he0
          · rw [if_neg h0] at heq; subst heq; exact hb e he0
        · show ((setPhase s.menus a Phase.closed).map Prod.fst).Nodup
          rw [setPhase_map_fst]
          exact hn
        · intro e he hop
          obtain ⟨e0, he0, heq⟩ := mem_setPhase he
          by_cases h0 : e0.1 = a
          · rw [if_pos h0] at heq
            subst heq
            rcases hop with h4 | h4 <;> exact Phase.noConfusion h4
          · rw [if_neg h0] at heq
            subst heq
            have h1 := ho e he0 hop
            rw [hA] at h1
            exact absurd (Option.some.inj h1).symm h0
      · simp only [engineStep, hA, hi, if_false]
        refine ⟨?_, ?_, ?_⟩
        · intro e he
          obtain ⟨e0, he0, heq⟩ := mem_setPhase he
          by_cases h0 : e0.1 = a
          · rw [if_pos h0] at heq; subst heq; exact hb e0 he0
          · rw [if_neg h0] at heq; subst heq; exact hb e he0
        · show ((setPhase s.menus a Phase.closing).map Prod.fst).Nodup
          rw [setPhase_map_fst]
          exact hn
        · intro e he hop
          obtain ⟨e0, he0, heq⟩ := mem_setPhase he
          by_cases h0 : e0.1 = a
          · rw [if_pos h0] at heq
            subst heq
            rcases hop with h4 | h4 <;> exact Phase.noConfusion h4
          · rw [if_neg h0] at heq
            subst heq
            have h1 := ho e he0 hop
            rw [hA] at h1
            show (some a : Option Nat) = some e.1
            exact h1
  | closeTimer i =>
    by_cases hc : phaseOf s i = Phase.closing
    · simp only [engineStep, hc, if_true]
      refine ⟨?_, ?_, ?_⟩
      · intro e he
        obtain ⟨e0, he0, heq⟩ := mem_setPhase he
        by_cases h0 : e0.1 = i
        · rw [if_pos h0] at heq; subst heq; exact hb e0 he0
        · rw [if_neg h0] at heq; subst heq; exact hb e he0
      · show ((setPhase s.menus i Phase.closed).map Prod.fst).Nodup
        rw [setPhase_map_fst]
        exact hn
      · intro e he hop
        obtain ⟨e0, he0, heq⟩ := mem_setPhase he
        by_cases h0 : e0.1 = i
        · rw [if_pos h0] at heq
          subst heq
          rcases hop with h4 | h4 <;> exact Phase.noConfusion h4
        · rw [if_neg h0] at heq
          subst heq
          have h1 := ho e he0 hop
          have hne : s.active ≠ some i := by
            rw [h1]
            intro hcontra
            exact h0 (Option.some.inj hcontra)
          show (if s.active = some i then none else s.active) = some e.1
          rw [if_neg hne]
          exact h1
    · simp only [engineStep, hc, if_false]
      exact ⟨hb, hn, ho⟩

lemma engineInv_foldl (evts : List Event) :
    ∀ s : EngineState, EngineInv s → EngineInv (evts.foldl engineStep s) := by
  induction evts with
  | nil => intro s hs; exact hs
  | cons ev evts ih =>
    intro s hs
    exact ih (engineStep s ev) (engineInv_step s ev hs)

lemma engineInv_run (evts : List Event) : EngineInv (runEngine evts) := by
  have hinit : EngineInv initEngine := by
    refine ⟨?_, ?_, ?_⟩
    · intro e he
      simp [initEngine] at he
    · simp [KeysNodup, initEngine]
    · intro e he hop
      simp [initEngine] at he
  exact engineInv_foldl evts initEngine hinit

lemma countP_le_one_of_key (l : List (Nat × Phase)) (a : Nat) (p : Nat × Phase → Bool)
    (hk : ∀ e ∈ l, p e = true → e.1 = a) (hn : (l.map Prod.fst).Nodup) :
    l.countP p ≤ 1 := by
  induction l with
  | nil => simp
  | cons hd tl ih =>
    rw [List.countP_cons]
    have htl : (tl.map Prod.fst).Nodup := (List.nodup_cons.mp hn).2
    by_cases hp : p hd = true
    · have hhd : hd.1 = a := hk hd (List.mem_cons_self _ _) hp
      have hzero : tl.countP p = 0 := by
        rw [List.countP_eq_zero]
        intro e he
        intro hpe
        have : e.1 = a := hk e (List.mem_cons_of_mem _ he) hpe
        have hmem : a ∈ tl.map Prod.fst := this ▸ List.mem_map_of_mem (f := Prod.fst) he
        rw [← hhd] at hmem
        exact (List.nodup_cons.mp hn).1 hmem
      simp [hp, hzero]
    · have : p hd = false := Bool.eq_false_iff.mpr hp
      rw [this]
      simp only [if_false, Bool.false_eq_true, Nat.add_zero]
      exact ih (fun e he hpe => hk e (List.mem_cons_of_mem _ he) hpe) htl

/-- C1 (counterexample).  The claim says an open request issued while another
root menu is active "first sequences that previous menu fully into the Closed
state before the new menu reaches Open".  Running two successive open requests
(no timer fires in between, exactly as when a user opens a second menu during
the 200 ms close animation of the first) leaves menu 0 merely in the `closing`
phase — not `closed` — while menu 1 is already fully `opened`:
`_openMenu` starts the previous menu's closing animation "without waiting"
(comment in the source) and builds the new menu in the same synchronous run. -/
theorem c1_counterexample :
    phaseOf (runEngine [Event.openReq true, Event.openReq true]) 0 = Phase.closing
    ∧ phaseOf (runEngine [Event.openReq true, Event.openReq true]) 1 = Phase.opened
    ∧ Phase.closing ≠ Phase.closed :=
  ⟨rfl, rfl, fun h => Phase.noConfusion h⟩

/-- C1 (amended).  For every sequence of open requests, close requests and
close-animation timer events, at most one root menu is in the Open or Opening
state at any time; an open request issued while another root menu is active
immediately forces that menu out of Open/Opening into its Closing sequence
before the new menu reaches Open (every menu other than the active one is
Closing or Closed), but the previous menu only reaches Closed when its close
timer fires — possibly after the new menu is already Open. -/
theorem c1_exclusive_open_invariant (evts : List Event) :
    countOpenB (runEngine evts) ≤ 1 ∧ othersSettledB (runEngine evts) = true := by
  obtain ⟨hb, hn, ho⟩ := engineInv_run evts
  set s := runEngine evts with hs
  constructor
  · rw [countOpenB]
    cases hA : s.active with
    | none =>
      have hzero : s.menus.countP (fun e => e.2 == Phase.opened || e.2 == Phase.opening) = 0 := by
        rw [List.countP_eq_zero]
        intro e he hpe
        have hop : e.2 = Phase.opened ∨ e.2 = Phase.opening := by
          rcases Bool.or_eq_true_iff.mp hpe with h1 | h1
          · exact Or.inl (beq_iff_eq.mp h1)
          · exact Or.inr (beq_iff_eq.mp h1)
        have := ho e he hop
        rw [hA] at this
        exact Option.noConfusion this
      omega
    | some a =>
      apply countP_le_one_of_key s.menus a
      · intro e he hpe
        have hop : e.2 = Phase.opened ∨ e.2 = Phase.opening := by
          rcases Bool.or_eq_true_iff.mp hpe with h1 | h1
          · exact Or.inl (beq_iff_eq.mp h1)
          · exact Or.inr (beq_iff_eq.mp h1)
        have h1 := ho e he hop
        rw [hA] at h1
        exact (Option.some.inj h1).symm
      · exact hn
  · rw [othersSettledB, List.all_eq_true]
    intro e he
    cases h2 : e.2 with
    | closed => simp
    | closing => simp
    | opened =>
      have h1 := ho e he (Or.inl h2)
      simp [h1]
    | opening =>
      have h1 := ho e he (Or.inr h2)
      simp [h1]

/-- C3.  The source intends to surface a missing registered action (the error
branch with message `No action registered for command ...` is present at lines
1222-1235) but guards it with `action === "undefined"` — a comparison against
the string literal — while a failed registry lookup yields the undefined value.
Activating a command whose string `action` has no registration therefore takes
neither the throw branch nor the invocation branch: nothing is logged, nothing
is thrown, the notification is still dispatched and the menu is closed, i.e.
the activation is silently ignored. -/
theorem c3_missing_action_silently_ignored :
    actionClickHandler [] (fun _ => Except.ok ()) sampleTarget missingActionCmd false =
      ⟨none, false, none, some ⟨some "m1", 2, some "Broken", 7, some "file"⟩, true⟩ :=
  rfl

/-- C2 (counterexample).  The claim says the menu is unconditionally closed and
the notification dispatched whether the callback returns or throws.  With the
registered callback for "boomAction" throwing "boom", the click listener
re-throws the wrapped error before reaching the dispatch and `_hideMenu` calls:
the menu is NOT closed and NO notification is dispatched. -/
theorem c2_counterexample :
    (actionClickHandler [("boomAction", JsVal.fn 0)] (fun _ => Except.error "boom")
        sampleTarget boomCmd false).menuClosed = false
    ∧ (actionClickHandler [("boomAction", JsVal.fn 0)] (fun _ => Except.error "boom")
        sampleTarget boomCmd false).dispatched = none
    ∧ (actionClickHandler [("boomAction", JsVal.fn 0)] (fun _ => Except.error "boom")
        sampleTarget boomCmd false).thrown =
        some "Error executing action for command \"Boom\": boom" :=
  ⟨rfl, rfl, rfl⟩

/-- C2 (amended).  For every activation of an enabled Action command whose
`action` resolves to a callback: if the callback returns normally, the menu is
closed and the `QuickCTXActionSelected` notification carrying menu id, command
id, command label, target element and the element's stamped target type is
dispatched on the triggering element; if the callback throws, the error is
logged and re-thrown wrapped with the command's label, and the handler neither
dispatches the notification nor closes the menu. -/
theorem c2_action_close_and_notify (reg : List (String × JsVal))
    (behavior : Nat → Except String Unit) (target : TargetInfo) (cmd : CommandData) (f : Nat)
    (hres : resolveActionVal reg cmd.action = JsVal.fn f) :
    (behavior f = Except.ok () →
      actionClickHandler reg behavior target cmd false =
        ⟨some f, false, none,
          some ⟨target.customCtxmenu, cmd.id, cmd.label, target.elemId, target.customCtxmenuType⟩,
          true⟩)
    ∧ (∀ msg, behavior f = Except.error msg →
      actionClickHandler reg behavior target cmd false =
        ⟨some f, true,
          some ("Error executing action for command \"" ++ jsStr cmd.label ++ "\": " ++ msg),
          none, false⟩) := by
  constructor
  · intro hok
    simp only [actionClickHandler, hres, hok]
    rfl
  · intro msg herr
    simp only [actionClickHandler, hres, herr]
    rfl

/-- C2 (witness): the amended theorem applied to a concrete registry, callback
and command. -/
theorem c2_witness :
    actionClickHandler [("okAction", JsVal.fn 5)] (fun _ => Except.ok ())
        sampleTarget okCmd false =
      ⟨some 5, false, none, some ⟨some "m1", 4, some "Fine", 7, some "file"⟩, true⟩ :=
  (c2_action_close_and_notify [("okAction", JsVal.fn 5)] (fun _ => Except.ok ())
    sampleTarget okCmd 5 (by decide)).1 rfl

/-- C4.  For every command evaluated during a menu build: `visible = false`
suppresses rendering regardless of type match; a type match (targetTypes
containing the wildcard or the resolved type) renders the command with its own
`disabled` flag; a non-matching command is absent under the `hide` strategy and
rendered with the disabled state forced under the `disable` strategy. -/
theorem c4_filter_strategy (c : Command) (strategy : Strategy) (targetType : String) :
    (c.data.visible = false → renderCommand strategy targetType c = none)
    ∧ (c.data.visible = true → typeMatches c.data.targetTypes targetType = true →
        renderCommand strategy targetType c = some ⟨c.data, c.data.disabled⟩)
    ∧ (c.data.visible = true → typeMatches c.data.targetTypes targetType = false →
        (strategy = Strategy.hide → renderCommand strategy targetType c = none)
        ∧ (strategy = Strategy.disable →
            renderCommand strategy targetType c = some ⟨c.data, true⟩))
    ∧ (c.data.targetTypes.contains "*" = true →
        typeMatches c.data.targetTypes targetType = true)
    ∧ (c.data.targetTypes.contains targetType = true →
        typeMatches c.data.targetTypes targetType = true) := by
  refine ⟨?_, ?_, ?_, ?_, ?_⟩
  · intro hv
    simp [renderCommand, hv]
  · intro hv hm
    simp [renderCommand, hv, hm]
  · intro hv hm
    constructor
    · intro hs
      simp [renderCommand, hv, hm, hs]
    · intro hs
      simp [renderCommand, hv, hm, hs]
  · intro hw
    simp only [typeMatches, hw, Bool.true_or]
  · intro hw
    simp only [typeMatches, hw, Bool.or_true]

/-- C4 (witness): a visible command with `targetTypes = ["folder"]` evaluated
for resolved type "image" is absent under `hide` and rendered force-disabled
under `disable`. -/
theorem c4_witness :
    renderCommand Strategy.hide "image" folderOnlyCmd = none
    ∧ renderCommand Strategy.disable "image" folderOnlyCmd =
        some ⟨folderOnlyCmd.data, true⟩ := by
  constructor
  · exact ((c4_filter_strategy folderOnlyCmd Strategy.hide "image").2.2.1 rfl (by decide)).1 rfl
  · exact ((c4_filter_strategy folderOnlyCmd Strategy.disable "image").2.2.1 rfl (by decide)).2 rfl

/-- C5.  Root half (as claimed): a root build with zero remaining items is
aborted — nothing is shown and the menu is closed instantly, never reaching
Open.  Submenu half (where the code contradicts the claim): a submenu build
with zero remaining items does strip the parent's open-affordance, but the
`else` branch of `_buildAndShowMenu` has already run
`this._hideMenu(this.activeMenuElement, true)`, instantly closing the ROOT
menu instead of leaving it open. -/
theorem c5_empty_build_closes_root :
    (buildAndShowMenu [folderOnlyCmd] Strategy.hide "image" false).shown = false
    ∧ (buildAndShowMenu [folderOnlyCmd] Strategy.hide "image" false).activeHiddenInstantly = true
    ∧ (buildAndShowMenu [folderOnlyCmd] Strategy.hide "image" false).arrowStripped = false
    ∧ (buildAndShowMenu [folderOnlyCmd] Strategy.hide "image" true).shown = false
    ∧ (buildAndShowMenu [folderOnlyCmd] Strategy.hide "image" true).arrowStripped = true
    ∧ (buildAndShowMenu [folderOnlyCmd] Strategy.hide "image" true).activeHiddenInstantly = true :=
  ⟨rfl, rfl, rfl, rfl, rfl, rfl⟩

/-- C7 (counterexample).  The claim quantifies over every element that already
carries a target-type stamp.  An element whose stamp is the empty string does
carry a stamp (the attribute is present), yet the JS truthiness test
`el.dataset.customCtxmenuType ? existing : type` treats it as absent: binding
with type "" and then re-binding with type "image" overwrites the stamp. -/
theorem c7_counterexample :
    (bindOneElement ⟨none, none⟩ "m1" "").customCtxmenuType = some ""
    ∧ (bindOneElement (bindOneElement ⟨none, none⟩ "m1" "") "m1" "image").customCtxmenuType
        = some "image"
    ∧ (some "image" : Option String) ≠ some "" :=
  ⟨rfl, rfl, by decide⟩

/-- C7 (amended).  For every element that already carries a NON-EMPTY
target-type stamp, any subsequent `bindMenuToElements` call leaves the stamp
unchanged (the call is a no-op for the type field); in particular binding a
fresh element with a non-empty type and then re-binding with a different type
preserves the first type.  An empty-string stamp is falsy in the source's
truthiness test and is overwritten instead. -/
theorem c7_first_bind_wins (s : String) (hne : s ≠ "") :
    (∀ el : BoundElement, el.customCtxmenuType = some s →
        ∀ m t, (bindOneElement el m t).customCtxmenuType = some s)
    ∧ (∀ prevMenu : Option String, ∀ m1 m2 t2,
        (bindOneElement (bindOneElement ⟨prevMenu, none⟩ m1 s) m2 t2).customCtxmenuType
          = some s) := by
  constructor
  · intro el hstamp m t
    simp [bindOneElement, hstamp, hne]
  · intro prevMenu m1 m2 t2
    simp [bindOneElement, hne]

/-- C7 (witness): the amended theorem at a concrete element and types. -/
theorem c7_witness :
    (bindOneElement (bindOneElement ⟨none, none⟩ "m1" "doc") "m2" "other").customCtxmenuType
      = some "doc" :=
  (c7_first_bind_wins "doc" (by decide)).2 none "m1" "m2" "other"

/-- C9 (counterexample).  The claim says an overflowing submenu is offset by
the submenu's own width plus the parent item's width.  With parent box at
left 70, width 30 (so pre-flip anchor x = 70 + 30 - 5 = 95), submenu width 50
and viewport width 120, the source computes 95 - 50 - 30 + 10 = 25, not the
claimed 95 - (50 + 30) = 15. -/
theorem c9_counterexample :
    showMenuX 0 50 120 true 70 30 = 25
    ∧ (25 : Int) ≠ (70 + 30 - 5) - (50 + 30) := by
  decide

/-- C9 (amended).  When the anchor x plus the menu's measured width exceeds the
viewport width, a root menu is moved to `docWidth - menuWidth - 10` — its right
edge sits exactly at the viewport boundary minus the 10px inset whenever the
10px minimum left inset does not interfere, and the final position is clamped
to that minimum; a non-overflowing root menu keeps its anchor (clamped).  An
overflowing submenu flips to the parent item's left side, offset from its
pre-flip anchor (`parentLeft + parentWidth - 5`) by the submenu's own width
plus the parent item's width MINUS a 10px overlap allowance, clamped the same
way. -/
theorem c9_overflow_positioning (anchorX menuWidth docWidth parentLeft parentWidth : Int) :
    (anchorX + menuWidth > docWidth →
        showMenuX anchorX menuWidth docWidth false parentLeft parentWidth =
          max 10 (docWidth - menuWidth - 10))
    ∧ (anchorX + menuWidth > docWidth → 10 ≤ docWidth - menuWidth - 10 →
        showMenuX anchorX menuWidth docWidth false parentLeft parentWidth + menuWidth =
          docWidth - 10)
    ∧ (anchorX + menuWidth ≤ docWidth →
        showMenuX anchorX menuWidth docWidth false parentLeft parentWidth = max 10 anchorX)
    ∧ ((parentLeft + parentWidth - 5) + menuWidth > docWidth →
        showMenuX anchorX menuWidth docWidth true parentLeft parentWidth =
          max 10 ((parentLeft + parentWidth - 5) - menuWidth - parentWidth + 10)) := by
  refine ⟨?_, ?_, ?_, ?_⟩
  · intro h
    simp only [showMenuX, Bool.false_eq_true, if_false]
    split_ifs <;> omega
  · intro h hroom
    simp only [showMenuX, Bool.false_eq_true, if_false]
    split_ifs <;> omega
  · intro h
    simp only [showMenuX, Bool.false_eq_true, if_false]
    split_ifs <;> omega
  · intro h
    simp only [showMenuX, if_true]
    split_ifs <;> omega

/-- C9 (witness): the amended theorem at concrete numbers — a root menu whose
right edge would overflow by 50px ends with its right edge exactly at the
viewport boundary minus the 10px inset, and the counterweighted submenu flip. -/
theorem c9_witness :
    showMenuX 970 100 1020 false 0 0 = 910
    ∧ showMenuX 970 100 1020 false 0 0 + 100 = 1010
    ∧ showMenuX 0 50 120 true 70 30 = max 10 ((70 + 30 - 5) - 50 - 30 + 10) := by
  refine ⟨?_, ?_, ?_⟩
  · have h := (c9_overflow_positioning 970 100 1020 0 0).1 (by decide)
    rw [h]
    decide
  · have h := (c9_overflow_positioning 970 100 1020 0 0).2.1 (by decide) (by decide)
    exact h
  · exact (c9_overflow_positioning 0 50 120 70 30).2.2.2 (by decide)

/-- C10.  Constructing a MenuCommand with `targetTypes` given as an empty array
or as a non-array value normalizes `targetTypes` to `["*"]`, so the command
type-matches every resolved target type exactly as when the default is used. -/
theorem c10_targetTypes_normalized (id : Nat) (label : Option String) (ct : Option CmdType)
    (action : JsVal) (tt : TTInput) (subs : List MCOptions) (iconClass : Option String)
    (d v : Bool) (ord : Int) (c : Command)
    (htt : tt = TTInput.arr [] ∨ tt = TTInput.nonArray)
    (hok : mkMenuCommand (MCOptions.mk id label ct action tt subs iconClass d v ord) =
      Except.ok c) :
    c.data.targetTypes = ["*"]
    ∧ (∀ t, typeMatches c.data.targetTypes t = true)
    ∧ c.data.targetTypes = normalizeTargetTypes TTInput.absent := by
  simp only [mkMenuCommand] at hok
  by_cases hval : (ct.getD CmdType.action) ≠ CmdType.separator ∧ (label = none ∨ label = some "")
  · rw [if_pos hval] at hok
    exact absurd hok (by simp)
  · rw [if_neg hval] at hok
    cases hsub : mkMenuCommandList subs with
    | error e =>
      rw [hsub] at hok
      exact absurd hok (by simp)
    | ok subCmds =>
      rw [hsub] at hok
      have hc := Except.ok.inj hok
      rcases htt with h | h
      · subst h
        rw [← hc]
        refine ⟨rfl, ?_, rfl⟩
        intro t
        simp [Command.data, typeMatches, normalizeTargetTypes]
      · subst h
        rw [← hc]
        refine ⟨rfl, ?_, rfl⟩
        intro t
        simp [Command.data, typeMatches, normalizeTargetTypes]

/-- C10 (witness): a concrete MenuCommand built with an explicit empty
`targetTypes` array carries `["*"]` and matches the type "image". -/
theorem c10_witness :
    (Command.mk ⟨0, some "x", CmdType.action, JsVal.str "a", ["*"], none, false, true, 0⟩
        []).data.targetTypes = ["*"]
    ∧ typeMatches (Command.mk ⟨0, some "x", CmdType.action, JsVal.str "a", ["*"], none, false,
        true, 0⟩ []).data.targetTypes "image" = true := by
  have h := c10_targetTypes_normalized 0 (some "x") none (JsVal.str "a") (TTInput.arr []) []
    none false true 0
    (Command.mk ⟨0, some "x", CmdType.action, JsVal.str "a", ["*"], none, false, true, 0⟩ [])
    (Or.inl rfl)
    (by simp [mkMenuCommand, mkMenuCommandList, normalizeTargetTypes])
  exact ⟨h.1, h.2.1 "image"⟩

lemma mergeFirstFlat_append (a : JsVal) (u : Updates) (l1 l2 : List CommandData) :
    mergeFirstFlat a u (l1 ++ l2) =
      match mergeFirstFlat a u l1 with
      | some l1x => some (l1x ++ l2)
      | none => Option.map (fun lx => l1 ++ lx) (mergeFirstFlat a u l2) := by
  induction l1 with
  | nil =>
    simp only [List.nil_append, mergeFirstFlat]
    cases mergeFirstFlat a u l2 <;> simp
  | cons d l1 ih =>
    simp only [List.cons_append, mergeFirstFlat, List.append_eq]
    by_cases hd : d.action = a
    · rw [if_pos hd, if_pos hd]
      simp
    · rw [if_neg hd, if_neg hd]
      rw [ih]
      cases h1 : mergeFirstFlat a u l1 with
      | some l1x => simp
      | none =>
        cases h2 : mergeFirstFlat a u l2 <;> simp

lemma findAndMergeL_flat (a : JsVal) (u : Updates) :
    ∀ cs : List Command,
      Option.map preorderFlat (findAndMergeL a u cs) = mergeFirstFlat a u (preorderFlat cs)
  | [] => by simp [findAndMergeL, preorderFlat, mergeFirstFlat]
  | Command.mk d subs :: rest => by
    have ih1 := findAndMergeL_flat a u subs
    have ih2 := findAndMergeL_flat a u rest
    simp only [findAndMergeL, preorderFlat, mergeFirstFlat]
    by_cases hd : d.action = a
    · rw [if_pos hd, if_pos hd]
      simp [preorderFlat]
    · rw [if_neg hd, if_neg hd]
      rw [mergeFirstFlat_append a u (preorderFlat subs) (preorderFlat rest)]
      rw [← ih1, ← ih2]
      cases h1 : findAndMergeL a u subs with
      | some subs2 => simp [preorderFlat]
      | none =>
        cases h2 : findAndMergeL a u rest with
        | some rest2 => simp [preorderFlat]
        | none => simp

lemma mergeFirstFlat_isSome (a : JsVal) (u : Updates) (l : List CommandData) :
    (mergeFirstFlat a u l).isSome = l.any (fun d => d.action == a) := by
  induction l with
  | nil => rfl
  | cons d rest ih =>
    simp only [mergeFirstFlat, List.any_cons]
    by_cases hd : d.action = a
    · simp [hd]
    · rw [if_neg hd]
      have hbe : (d.action == a) = false := beq_eq_false_iff_ne.mpr hd
      rw [hbe]
      simp only [Bool.false_or]
      rw [← ih]
      cases mergeFirstFlat a u rest <;> rfl

lemma findAndMergeL_isSome (a : JsVal) (u : Updates) (cs : List Command) :
    (findAndMergeL a u cs).isSome = (preorderFlat cs).any (fun d => d.action == a) := by
  rw [← mergeFirstFlat_isSome a u (preorderFlat cs), ← findAndMergeL_flat a u cs]
  cases findAndMergeL a u cs <;> rfl

lemma findAndMergeL_isSome_indep (a : JsVal) (u v : Updates) (cs : List Command) :
    (findAndMergeL a u cs).isSome = (findAndMergeL a v cs).isSome := by
  rw [findAndMergeL_isSome, findAndMergeL_isSome]

lemma findAndMergeL_label_absorb (a : JsVal) (x y : String) :
    ∀ (cs cs1 : List Command),
      findAndMergeL a (labelUpdate x) cs = some cs1 →
      findAndMergeL a (labelUpdate y) cs1 = findAndMergeL a (labelUpdate y) cs
  | [], cs1, h => by simp [findAndMergeL] at h
  | Command.mk d subs :: rest, cs1, h => by
    by_cases hd : d.action = a
    · simp only [findAndMergeL, if_pos hd] at h ⊢
      have hcs := Option.some.inj h
      subst hcs
      have hda : (mergeData d (labelUpdate x)).action = a := hd
      simp only [findAndMergeL, if_pos hda]
      rfl
    · simp only [findAndMergeL, if_neg hd] at h ⊢
      cases h1 : findAndMergeL a (labelUpdate x) subs with
      | some subs2 =>
        simp only [h1, Option.some.injEq] at h
        subst h
        simp only [findAndMergeL, if_neg hd]
        rw [findAndMergeL_label_absorb a x y subs subs2 h1]
        have hys : (findAndMergeL a (labelUpdate y) subs).isSome = true := by
          have hind := findAndMergeL_isSome_indep a (labelUpdate y) (labelUpdate x) subs
          rw [h1] at hind
          simpa using hind
        obtain ⟨s3, hs3⟩ := Option.isSome_iff_exists.mp hys
        rw [hs3]
      | none =>
        simp only [h1] at h
        cases h2 : findAndMergeL a (labelUpdate x) rest with
        | some rest2 =>
          simp only [h2, Option.some.injEq] at h
          subst h
          simp only [findAndMergeL, if_neg hd]
          have hsubs : findAndMergeL a (labelUpdate y) subs = none := by
            have hind := findAndMergeL_isSome_indep a (labelUpdate y) (labelUpdate x) subs
            rw [h1] at hind
            cases hY : findAndMergeL a (labelUpdate y) subs
            · rfl
            · rw [hY] at hind
              simp at hind
          rw [hsubs]
          rw [findAndMergeL_label_absorb a x y rest rest2 h2]
        | none =>
          simp [h2] at h

lemma updateMenuCommandModel_snd (famap : List (Nat × String))
    (cfgs : List (String × List Command)) (menuId : String) (ref : JsVal) (u : Updates) :
    (updateMenuCommandModel famap cfgs menuId ref u).2 =
      (match cfgs.lookup menuId with
        | none => false
        | some commands => (findAndMergeL (resolveRef famap ref) u commands).isSome) := by
  simp only [updateMenuCommandModel]
  cases cfgs.lookup menuId with
  | none => rfl
  | some commands =>
    cases hF : findAndMergeL (resolveRef famap ref) u commands with
    | some c2 => simp [hF]
    | none => simp [hF]

/-- C6.  `updateMenuCommand(menuId, actionRef, updates)`: (1) it returns true
exactly when the named configuration exists and its pre-order flattening (each
command before its subCommands, a subtree before later siblings) contains a
command whose `action` equals the resolved reference (a callback reference
being resolved through `functionActionMap` first); (2) the merge result
coincides, after pre-order flattening, with the spec-side first-match merge
that rewrites only the first matching command and leaves every other command
unchanged; (3) a label-only update rewrites only the `label` field; (4) two
successive label updates of the same command absorb: the second leaves exactly
the state a single update with the final label would produce, so the command
ends with the last label and no other field altered. -/
theorem c6_update_menu_command (famap : List (Nat × String))
    (cfgs : List (String × List Command)) (menuId : String) (ref : JsVal) (u : Updates)
    (x y : String) :
    ((updateMenuCommandModel famap cfgs menuId ref u).2 = true ↔
      ∃ commands, cfgs.lookup menuId = some commands ∧
        (preorderFlat commands).any (fun d => d.action == resolveRef famap ref) = true)
    ∧ (∀ commands : List Command,
        Option.map preorderFlat (findAndMergeL (resolveRef famap ref) u commands) =
          mergeFirstFlat (resolveRef famap ref) u (preorderFlat commands))
    ∧ (∀ d : CommandData, mergeData d (labelUpdate y) = { d with label := some y })
    ∧ (∀ commands commands1 : List Command,
        findAndMergeL (resolveRef famap ref) (labelUpdate x) commands = some commands1 →
        findAndMergeL (resolveRef famap ref) (labelUpdate y) commands1 =
          findAndMergeL (resolveRef famap ref) (labelUpdate y) commands) := by
  refine ⟨?_, fun commands => findAndMergeL_flat _ u commands, fun d => rfl,
    fun c c1 h => findAndMergeL_label_absorb _ x y c c1 h⟩
  rw [updateMenuCommandModel_snd]
  cases hL : cfgs.lookup menuId with
  | none => simp
  | some commands =>
    show (findAndMergeL (resolveRef famap ref) u commands).isSome = true ↔
      ∃ c, some commands = some c ∧
        (preorderFlat c).any (fun d => d.action == resolveRef famap ref) = true
    rw [findAndMergeL_isSome]
    constructor
    · intro hany
      exact ⟨commands, rfl, hany⟩
    · rintro ⟨c, hc, hany⟩
      rw [← Option.some.inj hc] at hany
      exact hany

/-- C6 (witness): on a concrete configuration, updating the label to "X" and
then to "Y" coincides with a single update to "Y" (absorption conjunct), and
`updateMenuCommand` reports success (found-match conjunct). -/
theorem c6_witness :
    findAndMergeL (JsVal.str "t") (labelUpdate "Y") c6FlatCmdsX =
      findAndMergeL (JsVal.str "t") (labelUpdate "Y") c6FlatCmds
    ∧ (updateMenuCommandModel [] c6Cfgs "m1" (JsVal.str "t") (labelUpdate "X")).2 = true := by
  constructor
  · exact (c6_update_menu_command [] c6Cfgs "m1" (JsVal.str "t") (labelUpdate "X") "X" "Y").2.2.2
      c6FlatCmds c6FlatCmdsX
      (by simp [c6FlatCmds, c6FlatCmdsX, findAndMergeL, mergeData, labelUpdate, resolveRef])
  · exact (c6_update_menu_command [] c6Cfgs "m1" (JsVal.str "t") (labelUpdate "X") "X" "Y").1.mpr
      ⟨c6Commands, rfl, by simp [c6Commands, preorderFlat, resolveRef]⟩

/-- The mirror invariant tying the two auto-registration maps together, plus
uniqueness of `functionActionMap` keys. -/
def RegInv (st : RegState) : Prop :=
  st.registeredActions = st.functionActionMap.map (fun e => (e.2, e.1))
  ∧ (st.functionActionMap.map Prod.fst).Nodup

lemma lookup_none_not_mem {l : List (Nat × String)} {f : Nat} (h : l.lookup f = none) :
    f ∉ l.map Prod.fst := by
  induction l with
  | nil => simp
  | cons hd tl ih =>
    obtain ⟨k, v⟩ := hd
    by_cases hk : f = k
    · subst hk
      simp [List.lookup] at h
    · have hbe : (f == k) = false := beq_eq_false_iff_ne.mpr hk
      simp only [List.lookup, hbe] at h
      simp only [List.map_cons, List.mem_cons]
      rintro (hc | hc)
      · exact hk hc
      · exact ih h hc

lemma processAction_inv {st : RegState} (a : JsVal) (h : RegInv st) :
    RegInv (processAction st a).1 := by
  obtain ⟨hm, hn⟩ := h
  cases a with
  | fn f =>
    simp only [processAction]
    cases hL : st.functionActionMap.lookup f with
    | some name => exact ⟨hm, hn⟩
    | none =>
      refine ⟨?_, ?_⟩
      · simp [hm]
      · simp only [List.map_cons]
        exact List.nodup_cons.mpr ⟨lookup_none_not_mem hL, hn⟩
  | undef => exact ⟨hm, hn⟩
  | nullV => exact ⟨hm, hn⟩
  | str s => exact ⟨hm, hn⟩

lemma processAction_lookup_keep {st : RegState} (a : JsVal) {g : Nat} {n : String}
    (h : st.functionActionMap.lookup g = some n) :
    (processAction st a).1.functionActionMap.lookup g = some n := by
  cases a with
  | fn f =>
    simp only [processAction]
    cases hL : st.functionActionMap.lookup f with
    | some name => exact h
    | none =>
      have hne : g ≠ f := by
        intro hc
        rw [hc] at h
        rw [hL] at h
        exact Option.noConfusion h
      have hbe : (g == f) = false := beq_eq_false_iff_ne.mpr hne
      show List.lookup g ((f, genName st.fresh) :: st.functionActionMap) = some n
      simp only [List.lookup, hbe]
      exact h
  | undef => exact h
  | nullV => exact h
  | str s => exact h

lemma processAction_lookup_isSome (st : RegState) (a : JsVal) (g : Nat) :
    ((processAction st a).1.functionActionMap.lookup g).isSome =
      ((st.functionActionMap.lookup g).isSome || (a == JsVal.fn g)) := by
  cases a with
  | fn f =>
    simp only [processAction]
    cases hL : st.functionActionMap.lookup f with
    | some name =>
      by_cases hg : f = g
      · subst hg
        rw [hL]
        simp
      · have hbe : (JsVal.fn f == JsVal.fn g) = false := by
          simp [hg]
        rw [hbe]
        simp
    | none =>
      by_cases hg : f = g
      · subst hg
        show (List.lookup f ((f, genName st.fresh) :: st.functionActionMap)).isSome = _
        simp [List.lookup]
      · have hbe : (g == f) = false := beq_eq_false_iff_ne.mpr (fun hc => hg hc.symm)
        show (List.lookup g ((f, genName st.fresh) :: st.functionActionMap)).isSome = _
        simp [List.lookup, hbe, hg]
  | undef => simp [processAction]
  | nullV => simp [processAction]
  | str s => simp [processAction]

lemma processItems_props (f : Nat) :
    ∀ (items : List ItemDef) (st : RegState),
      ((processItems st items).functionActionMap.lookup f).isSome =
        ((st.functionActionMap.lookup f).isSome || itemsUseFn items f)
      ∧ (∀ n, st.functionActionMap.lookup f = some n →
          (processItems st items).functionActionMap.lookup f = some n)
      ∧ (RegInv st → RegInv (processItems st items))
  | [], st => by
    refine ⟨?_, ?_, ?_⟩
    · simp [processItems, itemsUseFn]
    · intro n hn
      simp only [processItems]
      exact hn
    · intro h
      simp only [processItems]
      exact h
  | ItemDef.mk a subs :: rest, st => by
    have ih1 := processItems_props f subs st
    have ih2 := processItems_props f rest ((processAction (processItems st subs) a).1)
    simp only [processItems, itemsUseFn]
    refine ⟨?_, ?_, ?_⟩
    · rw [ih2.1, processAction_lookup_isSome, ih1.1]
      cases (st.functionActionMap.lookup f).isSome <;> cases itemsUseFn subs f <;>
        cases (a == JsVal.fn f) <;> cases itemsUseFn rest f <;> rfl
    · intro n hn
      exact ih2.2.1 n (processAction_lookup_keep a (ih1.2.1 n hn))
    · intro hinv
      exact ih2.2.2 (processAction_inv a (ih1.2.2 hinv))

lemma processStructures_props (f : Nat) :
    ∀ (structures : List (List ItemDef)) (st : RegState),
      ((processStructures st structures).functionActionMap.lookup f).isSome =
        ((st.functionActionMap.lookup f).isSome || structuresUseFn structures f)
      ∧ (∀ n, st.functionActionMap.lookup f = some n →
          (processStructures st structures).functionActionMap.lookup f = some n)
      ∧ (RegInv st → RegInv (processStructures st structures)) := by
  intro structures
  induction structures with
  | nil =>
    intro st
    refine ⟨?_, ?_, ?_⟩
    · simp [processStructures, structuresUseFn]
    · intro n hn
      simp only [processStructures]
      exact hn
    · intro h
      simp only [processStructures]
      exact h
  | cons s rest ih =>
    intro st
    have ihs := processItems_props f s st
    have ihr := ih (processItems st s)
    simp only [processStructures, structuresUseFn, List.any_cons]
    refine ⟨?_, ?_, ?_⟩
    · rw [ihr.1, ihs.1]
      simp only [structuresUseFn]
      cases (st.functionActionMap.lookup f).isSome <;> cases itemsUseFn s f <;>
        cases (rest.any fun s2 => itemsUseFn s2 f) <;> rfl
    · intro n hn
      exact ihr.2.1 n (ihs.2.1 n hn)
    · intro hinv
      exact ihr.2.2 (ihs.2.2 hinv)

lemma processStructures_append (st : RegState) (l1 l2 : List (List ItemDef)) :
    processStructures st (l1 ++ l2) = processStructures (processStructures st l1) l2 := by
  induction l1 generalizing st with
  | nil => rfl
  | cons s rest ih =>
    simp only [List.cons_append, processStructures]
    exact ih _

lemma countFnEntries_eq (f : Nat) :
    ∀ l : List (Nat × String), (l.map Prod.fst).Nodup →
      countFnEntries l f = (if (l.lookup f).isSome then 1 else 0) := by
  intro l
  induction l with
  | nil =>
    intro _
    rfl
  | cons hd tl ih =>
    intro hn
    obtain ⟨k, v⟩ := hd
    have htl : (tl.map Prod.fst).Nodup := (List.nodup_cons.mp hn).2
    by_cases hk : k = f
    · subst hk
      have h0 : tl.countP (fun e => e.1 == k) = 0 := by
        rw [List.countP_eq_zero]
        intro e he hpe
        have hek : e.1 = k := by simpa using hpe
        have hmem : k ∈ tl.map Prod.fst := hek ▸ List.mem_map_of_mem (f := Prod.fst) he
        exact (List.nodup_cons.mp hn).1 hmem
      simp [countFnEntries, List.countP_cons, List.lookup, h0]
    · have hbe1 : ((k, v).1 == f) = false := beq_eq_false_iff_ne.mpr hk
      have hbe2 : (f == k) = false := beq_eq_false_iff_ne.mpr (fun hc => hk hc.symm)
      have := ih htl
      simp only [countFnEntries, List.countP_cons, List.lookup, hbe1, hbe2] at this ⊢
      simpa using this

/-- C8.  Starting from a fresh instance, across any sequence of
`createAndBindMenu` calls and any nesting of commands: a callback used as an
inline action ends with exactly one entry in `functionActionMap` and exactly
one auto-registered entry in the registered-actions map (and a callback never
used has none); moreover the name cached for a callback is stable — once a
prefix of the calls has assigned a name, any further calls leave that binding
unchanged, so the same function reused across commands and calls shares one
registry entry. -/
theorem c8_unique_action_registration (structures : List (List ItemDef)) (f : Nat) :
    countFnEntries (processStructures initRegState structures).functionActionMap f =
      (if structuresUseFn structures f then 1 else 0)
    ∧ countRegEntries (processStructures initRegState structures).registeredActions f =
      (if structuresUseFn structures f then 1 else 0)
    ∧ (∀ pre post : List (List ItemDef), ∀ n : String,
        (processStructures initRegState pre).functionActionMap.lookup f = some n →
        (processStructures initRegState (pre ++ post)).functionActionMap.lookup f = some n) := by
  have hprops := processStructures_props f structures initRegState
  have hinv0 : RegInv initRegState := ⟨rfl, List.nodup_nil⟩
  have hinv := hprops.2.2 hinv0
  have hiso : ((processStructures initRegState structures).functionActionMap.lookup f).isSome =
      structuresUseFn structures f := by
    rw [hprops.1]
    simp [initRegState]
  refine ⟨?_, ?_, ?_⟩
  · rw [countFnEntries_eq f _ hinv.2, hiso]
  · rw [countRegEntries, hinv.1, List.countP_map]
    show countFnEntries (processStructures initRegState structures).functionActionMap f = _
    rw [countFnEntries_eq f _ hinv.2, hiso]
  · intro pre post n hn
    rw [processStructures_append]
    exact (processStructures_props f post (processStructures initRegState pre)).2.1 n hn

/-- C8 (witness): two concrete `createAndBindMenu` calls both using callback 0
(once nested) leave exactly one map entry and one registry entry for it, and
the name assigned by the first call survives the second. -/
theorem c8_witness :
    countFnEntries (processStructures initRegState c8Structures).functionActionMap 0 = 1
    ∧ countRegEntries (processStructures initRegState c8Structures).registeredActions 0 = 1
    ∧ (processStructures initRegState ([c8First] ++ [c8Second])).functionActionMap.lookup 0 =
        some (genName 0) := by
  have h := c8_unique_action_registration c8Structures 0
  have hu : structuresUseFn c8Structures 0 = true := by
    simp [c8Structures, c8First, c8Second, structuresUseFn, itemsUseFn]
  refine ⟨?_, ?_, ?_⟩
  · rw [h.1, hu]
    rfl
  · rw [h.2.1, hu]
    rfl
  · refine h.2.2 [c8First] [c8Second] (genName 0) ?_
    simp [processStructures, processItems, processAction, initRegState, c8First, List.lookup]
